import Mathlib

/-!
Verification of the Merkle-based whitelist/entitlement manager (`MerkleManager`)
of the on-chain-game repository.

The manager keeps a JS `Map` from address strings to amount strings, rebuilds a
Merkle tree (merkletreejs with `sortPairs: true`) over `keccak256(solidityPack
(address, uint256 amount))` leaves on every mutation, and computes per-user
inclusion proofs.

Modelling conventions:
* a JS string is a list of UTF-16 code units (`Str := List Nat`);
* a JS `Map` is an association list in insertion order (`Map.set` overwrites
  in place, otherwise appends; `Map.delete` removes);
* byte buffers are lists of naturals `< 256`;
* Keccak-256 is implemented in full (validated against standard test vectors);
* each manager method returns the post-call state together with
  `Except JsError result`; JS mutates `this` before an exception can escape,
  so the state component is meaningful in the error case as well;
* `ethers.utils.isAddress` (v5) is modelled in its hex-address branch:
  optional `0x` mark, 40 hex digits, and the EIP-55 checksum test when the
  digits mix upper and lower case (the deprecated ICAP address form is not
  modelled); `BigNumber.from` on strings accepts optionally negated decimal
  or `0x`-hex numerals; `solidityPack(['address','uint256'], _)` packs the
  `arrayify`d address bytes (the string must be `0x`-marked hex) followed by
  the 32-byte big-endian `toTwos(256)` image of the amount — a negative
  amount wraps two's-complement, an amount of 33 or more bytes throws.
-/

set_option maxRecDepth 100000
set_option maxHeartbeats 4000000

/-! ### Keccak-256 -/

def rotl64 (x n : Nat) : Nat :=
  ((x <<< n) ||| (x >>> (64 - n))) &&& (2 ^ 64 - 1)

def roundConstants : List Nat :=
  [0x0000000000000001, 0x0000000000008082, 0x800000000000808a, 0x8000000080008000,
   0x000000000000808b, 0x0000000080000001, 0x8000000080008081, 0x8000000000008009,
   0x000000000000008a, 0x0000000000000088, 0x0000000080008009, 0x000000008000000a,
   0x000000008000808b, 0x800000000000008b, 0x8000000000008089, 0x8000000000008003,
   0x8000000000008002, 0x8000000000000080, 0x000000000000800a, 0x800000008000000a,
   0x8000000080008081, 0x8000000000008080, 0x0000000080000001, 0x8000000080008008]

/-- One Keccak-f[1600] round on the 25-lane state (lane index `i = x + 5 * y`),
written with explicit lanes: theta, rho+pi, chi, iota. -/
def keccakRound (s : List Nat) (rc : Nat) : List Nat :=
  match s with
  | [a0, a1, a2, a3, a4, a5, a6, a7, a8, a9, a10, a11, a12,
     a13, a14, a15, a16, a17, a18, a19, a20, a21, a22, a23, a24] =>
    let c0 := a0 ^^^ a5 ^^^ a10 ^^^ a15 ^^^ a20
    let c1 := a1 ^^^ a6 ^^^ a11 ^^^ a16 ^^^ a21
    let c2 := a2 ^^^ a7 ^^^ a12 ^^^ a17 ^^^ a22
    let c3 := a3 ^^^ a8 ^^^ a13 ^^^ a18 ^^^ a23
    let c4 := a4 ^^^ a9 ^^^ a14 ^^^ a19 ^^^ a24
    let d0 := c4 ^^^ rotl64 c1 1
    let d1 := c0 ^^^ rotl64 c2 1
    let d2 := c1 ^^^ rotl64 c3 1
    let d3 := c2 ^^^ rotl64 c4 1
    let d4 := c3 ^^^ rotl64 c0 1
    let t0 := a0 ^^^ d0
    let t1 := a1 ^^^ d1
    let t2 := a2 ^^^ d2
    let t3 := a3 ^^^ d3
    let t4 := a4 ^^^ d4
    let t5 := a5 ^^^ d0
    let t6 := a6 ^^^ d1
    let t7 := a7 ^^^ d2
    let t8 := a8 ^^^ d3
    let t9 := a9 ^^^ d4
    let t10 := a10 ^^^ d0
    let t11 := a11 ^^^ d1
    let t12 := a12 ^^^ d2
    let t13 := a13 ^^^ d3
    let t14 := a14 ^^^ d4
    let t15 := a15 ^^^ d0
    let t16 := a16 ^^^ d1
    let t17 := a17 ^^^ d2
    let t18 := a18 ^^^ d3
    let t19 := a19 ^^^ d4
    let t20 := a20 ^^^ d0
    let t21 := a21 ^^^ d1
    let t22 := a22 ^^^ d2
    let t23 := a23 ^^^ d3
    let t24 := a24 ^^^ d4
    let b0 := t0
    let b1 := rotl64 t6 44
    let b2 := rotl64 t12 43
    let b3 := rotl64 t18 21
    let b4 := rotl64 t24 14
    let b5 := rotl64 t3 28
    let b6 := rotl64 t9 20
    let b7 := rotl64 t10 3
    let b8 := rotl64 t16 45
    let b9 := rotl64 t22 61
    let b10 := rotl64 t1 1
    let b11 := rotl64 t7 6
    let b12 := rotl64 t13 25
    let b13 := rotl64 t19 8
    let b14 := rotl64 t20 18
    let b15 := rotl64 t4 27
    let b16 := rotl64 t5 36
    let b17 := rotl64 t11 10
    let b18 := rotl64 t17 15
    let b19 := rotl64 t23 56
    let b20 := rotl64 t2 62
    let b21 := rotl64 t8 55
    let b22 := rotl64 t14 39
    let b23 := rotl64 t15 41
    let b24 := rotl64 t21 2
    let m := (2 : Nat) ^ 64 - 1
    [b0 ^^^ ((m ^^^ b1) &&& b2) ^^^ rc,
     b1 ^^^ ((m ^^^ b2) &&& b3),
     b2 ^^^ ((m ^^^ b3) &&& b4),
     b3 ^^^ ((m ^^^ b4) &&& b0),
     b4 ^^^ ((m ^^^ b0) &&& b1),
     b5 ^^^ ((m ^^^ b6) &&& b7),
     b6 ^^^ ((m ^^^ b7) &&& b8),
     b7 ^^^ ((m ^^^ b8) &&& b9),
     b8 ^^^ ((m ^^^ b9) &&& b5),
     b9 ^^^ ((m ^^^ b5) &&& b6),
     b10 ^^^ ((m ^^^ b11) &&& b12),
     b11 ^^^ ((m ^^^ b12) &&& b13),
     b12 ^^^ ((m ^^^ b13) &&& b14),
     b13 ^^^ ((m ^^^ b14) &&& b10),
     b14 ^^^ ((m ^^^ b10) &&& b11),
     b15 ^^^ ((m ^^^ b16) &&& b17),
     b16 ^^^ ((m ^^^ b17) &&& b18),
     b17 ^^^ ((m ^^^ b18) &&& b19),
     b18 ^^^ ((m ^^^ b19) &&& b15),
     b19 ^^^ ((m ^^^ b15) &&& b16),
     b20 ^^^ ((m ^^^ b21) &&& b22),
     b21 ^^^ ((m ^^^ b22) &&& b23),
     b22 ^^^ ((m ^^^ b23) &&& b24),
     b23 ^^^ ((m ^^^ b24) &&& b20),
     b24 ^^^ ((m ^^^ b20) &&& b21)]
  | other => other

def keccakF (s : List Nat) : List Nat :=
  roundConstants.foldl keccakRound s

def laneFromBytes (block : List Nat) (i : Nat) : Nat :=
  (block.getD (8 * i) 0) ||| ((block.getD (8 * i + 1) 0) <<< 8) |||
  ((block.getD (8 * i + 2) 0) <<< 16) ||| ((block.getD (8 * i + 3) 0) <<< 24) |||
  ((block.getD (8 * i + 4) 0) <<< 32) ||| ((block.getD (8 * i + 5) 0) <<< 40) |||
  ((block.getD (8 * i + 6) 0) <<< 48) ||| ((block.getD (8 * i + 7) 0) <<< 56)

def absorbBlock (s : List Nat) (block : List Nat) : List Nat :=
  keccakF ((List.range 25).map fun i =>
    if i < 17 then (s.getD i 0) ^^^ laneFromBytes block i else s.getD i 0)

/-- Original Keccak multi-rate padding (`0x01 … 0x80`), rate 136 bytes. -/
def padKeccak (msg : List Nat) : List Nat :=
  let padLen := 136 - msg.length % 136
  if padLen == 1 then msg ++ [0x81]
  else msg ++ [0x01] ++ List.replicate (padLen - 2) 0 ++ [0x80]

/-- Splits a byte list into 136-byte blocks; the fuel (initialised with the
list length, which suffices) keeps the recursion structural so that it
reduces inside the kernel. -/
def chunksAux : Nat → List Nat → List (List Nat)
  | _, [] => []
  | 0, l => [l]
  | fuel + 1, a :: rest => ((a :: rest).take 136) :: chunksAux fuel ((a :: rest).drop 136)

def chunks136 (l : List Nat) : List (List Nat) := chunksAux l.length l

/-- Keccak-256 of a byte list (as used by the `keccak256` npm package and by
Ethereum); output is the 32-byte digest. -/
def keccak256 (msg : List Nat) : List Nat :=
  let final := (chunks136 (padKeccak msg)).foldl absorbBlock (List.replicate 25 0)
  (List.range 32).map fun i => ((final.getD (i / 8) 0) >>> (8 * (i % 8))) &&& 0xff

/-! ### JS strings and the ethers v5 address / amount model -/

/-- A JS string, as its list of UTF-16 code units. -/
abbrev Str := List Nat

def isDigitCode (n : Nat) : Bool := decide (48 ≤ n ∧ n ≤ 57)

def isLowerHexCode (n : Nat) : Bool := decide (97 ≤ n ∧ n ≤ 102)

def isUpperHexCode (n : Nat) : Bool := decide (65 ≤ n ∧ n ≤ 70)

def isHexCode (n : Nat) : Bool := isDigitCode n || isLowerHexCode n || isUpperHexCode n

/-- `String.prototype.toLowerCase` on one code unit (ASCII range; the manager
only lowercases strings that already passed address validation, which are
ASCII). -/
def lowerCode (n : Nat) : Nat := if 65 ≤ n ∧ n ≤ 90 then n + 32 else n

/-- `String.prototype.toUpperCase` on one code unit (ASCII range). -/
def upperCode (n : Nat) : Nat := if 97 ≤ n ∧ n ≤ 122 then n - 32 else n

def jsToLower (s : Str) : Str := s.map lowerCode

/-- Numeric value of a hex digit code unit. -/
def hexVal (n : Nat) : Nat := if n ≤ 57 then n - 48 else if n ≤ 70 then n - 55 else n - 87

/-- Drops a leading `0x` (code units 48, 120) if present.  A string matches
ethers' address regex `(0x)?[0-9a-fA-F]{40}` exactly when the result of
`stripHexMark` is 40 hex digits: a 42-character hex match must start `0x`
(since `x` is not a hex digit a plain 42-hex-character match is impossible),
and a plain 40-character match cannot start `0x` for the same reason. -/
def stripHexMark : Str → Str
  | a :: b :: t => if a = 48 ∧ b = 120 then t else a :: b :: t
  | s => s

/-- Test of ethers' mixed-case regex `([A-F].*[a-f])|([a-f].*[A-F])` on the
digit part (the only characters in either class are hex letters, so testing
the digits is the same as testing the whole `0x`-marked string). -/
def hasMixedHexCase (ds : Str) : Bool := ds.any isUpperHexCode && ds.any isLowerHexCode

/-- EIP-55 checksum form of 40 lowercase hex digits: keccak256 of their ASCII
bytes decides, nibble by nibble, which letters are uppercased
(ethers v5 `getChecksumAddress`). -/
def checksumDigits (lower : Str) : Str :=
  let h := keccak256 lower
  (List.range 40).map fun i =>
    let c := lower.getD i 0
    let nib := if i % 2 == 0 then (h.getD (i / 2) 0) >>> 4 else (h.getD (i / 2) 0) &&& 15
    if 8 ≤ nib then upperCode c else c

/-- Hex branch of ethers v5 `utils.isAddress`: optionally `0x`-marked 40 hex
digits, with the EIP-55 checksum enforced only when the digits mix upper and
lower case.  (The deprecated ICAP `XE…` branch is not modelled.) -/
def isAddress (s : Str) : Bool :=
  let ds := stripHexMark s
  ds.length == 40 && ds.all isHexCode &&
    (!(hasMixedHexCase ds) || checksumDigits (jsToLower ds) == ds)

def parseDecMag (ds : Str) : Option Nat :=
  if ds ≠ [] ∧ ds.all isDigitCode then
    some (ds.foldl (fun a d => 10 * a + (d - 48)) 0)
  else none

def parseHexMag (ds : Str) : Option Nat :=
  if ds ≠ [] ∧ ds.all isHexCode then
    some (ds.foldl (fun a d => 16 * a + hexVal d) 0)
  else none

def parseMagnitude : Str → Option Nat
  | 48 :: 120 :: ds => parseHexMag ds
  | ds => parseDecMag ds

/-- `ethers.BigNumber.from` on a string: `-?0x[0-9a-fA-F]+` or `-?[0-9]+`,
otherwise it throws (`none`). -/
def parseBigNum : Str → Option Int
  | 45 :: rest => (parseMagnitude rest).map (fun n => -(n : Int))
  | s => (parseMagnitude s).map (fun n => (n : Int))

/-- The `uint256` case of v5 `solidityPack`:
`BigNumber.from(value).toTwos(256).toHexString()` then `zeroPad(_, 32)` —
a negative value wraps two's-complement (no throw), a value of 33 or more
bytes makes `zeroPad` throw (`none`); the result is the 32-byte big-endian
encoding. -/
def packUint256 (v : Int) : Option (List Nat) :=
  let tw : Int := if v < 0 then 2 ^ 256 - (-v) % 2 ^ 256 else v
  if tw < 2 ^ 256 then
    some ((List.range 32).map fun i => (tw.toNat >>> (8 * (31 - i))) &&& 0xff)
  else none

/-- The `address` case of v5 `solidityPack`: plain `arrayify(value)` — the
string must be `0x`-marked even-length hex (no checksum or length check
here; the manager only packs keys that already passed `isAddress`), and its
digit pairs give the bytes. -/
def addressBytes (s : Str) : Option (List Nat) :=
  match s with
  | a :: b :: ds =>
    if a = 48 ∧ b = 120 ∧ ds.all isHexCode ∧ ds.length % 2 = 0 then
      some ((List.range (ds.length / 2)).map fun i =>
        16 * hexVal (ds.getD (2 * i) 0) + hexVal (ds.getD (2 * i + 1) 0))
    else none
  | _ => none

/-- `solidityPack(['address', 'uint256'], [addr, amount])`. -/
def solidityPackAddrUint (addr amount : Str) : Option (List Nat) :=
  match addressBytes addr, (parseBigNum amount).bind packUint256 with
  | some ab, some vb => some (ab ++ vb)
  | _, _ => none

/-- Leaf hash `keccak256(solidityPack(['address','uint256'], [addr, amount]))`
used both by tree construction and by `getMerkleProof`. -/
def leafHash (addr amount : Str) : Option (List Nat) :=
  (solidityPackAddrUint addr amount).map keccak256

/-- The leaves array built in `generateMerkleTree`; JS `Array.prototype.map`
propagates the first exception, so one bad record fails the whole list. -/
def computeLeaves : List (Str × Str) → Option (List (List Nat))
  | [] => some []
  | p :: rest =>
    match leafHash p.1 p.2, computeLeaves rest with
    | some l, some ls => some (l :: ls)
    | _, _ => none

/-! ### merkletreejs with `sortPairs: true` -/

/-- `Buffer.compare a b < 0`: lexicographic byte order. -/
def bytesLT : List Nat → List Nat → Bool
  | [], [] => false
  | [], _ :: _ => true
  | _ :: _, [] => false
  | a :: as, b :: bs => decide (a < b) || (decide (a = b) && bytesLT as bs)

/-- Hash of a sorted pair: `hashFn(concat([a, b].sort(Buffer.compare)))`. -/
def hashPair (a b : List Nat) : List Nat :=
  if bytesLT b a then keccak256 (b ++ a) else keccak256 (a ++ b)

/-- One level of `createHashes`: consecutive pairs are hashed (sorted first),
an odd trailing node is promoted unchanged (`duplicateOdd` defaults to
false). -/
def nextLayer : List (List Nat) → List (List Nat)
  | [] => []
  | [x] => [x]
  | a :: b :: rest => hashPair a b :: nextLayer rest

/-- Builds the layer list `[leaves, …, [root]]`; the fuel (initialised with
the leaf count, which bounds the number of levels) keeps the recursion
structural so that it reduces inside the kernel. -/
def buildLayersAux : Nat → List (List Nat) → List (List (List Nat))
  | 0, l => [l]
  | fuel + 1, l => if l.length ≤ 1 then [l] else l :: buildLayersAux fuel (nextLayer l)

def buildLayers (leaves : List (List Nat)) : List (List (List Nat)) :=
  buildLayersAux leaves.length leaves

/-- `getRoot`: first node of the last layer. -/
def rootOf (layers : List (List (List Nat))) : List Nat :=
  (layers.getLastD []).headD []

/-- Index search of `getProof`: the JS loop keeps overwriting the index, so
the last occurrence wins (`none` when the leaf is absent). -/
def lastIndexOfLeaf (leaves : List (List Nat)) (leaf : List Nat) : Option Nat :=
  (leaves.foldl
    (fun (p : Nat × Option Nat) x => (p.1 + 1, if x == leaf then some p.1 else p.2))
    (0, none)).2

/-- Sibling collection of `getProof`: per layer, the pair index is `idx - 1`
for a right node and `idx + 1` for a left node, pushed only when it is inside
the layer; then the index halves. -/
def collectProof : List (List (List Nat)) → Nat → List (List Nat)
  | [], _ => []
  | layer :: above, idx =>
    let pairIndex := if idx % 2 == 1 then idx - 1 else idx + 1
    (if pairIndex < layer.length then [layer.getD pairIndex []] else []) ++
      collectProof above (idx / 2)

/-- `getProof` / `getHexProof`: searches the leaf in the leaves layer and
collects sibling hashes; an unknown leaf yields the empty proof. -/
def getProofFromTree (layers : List (List (List Nat))) (leaf : List Nat) : List (List Nat) :=
  match lastIndexOfLeaf (layers.headD []) leaf with
  | none => []
  | some idx => collectProof layers idx

/-- `MerkleTree.verify` with `sortPairs: true`: fold the proof over the leaf,
hashing each pair in sorted order, and compare with the root. -/
def verifyProof (proof : List (List Nat)) (leaf root : List Nat) : Bool :=
  (proof.foldl
      (fun h d => if bytesLT h d then keccak256 (h ++ d) else keccak256 (d ++ h)) leaf)
    == root

/-! ### The MerkleManager -/

inductive JsError where
  | invalidAddressFormat
  | invalidAmount
  | userNotWhitelisted
  | merkleTreeNotGenerated
  | invalidWhitelistData
  | ethersPackError
deriving DecidableEq

instance {ε α : Type} [DecidableEq ε] [DecidableEq α] : DecidableEq (Except ε α) :=
  fun a b =>
    match a, b with
    | .ok x, .ok y =>
      if h : x = y then .isTrue (h ▸ rfl) else .isFalse (fun hc => h (Except.ok.inj hc))
    | .error x, .error y =>
      if h : x = y then .isTrue (h ▸ rfl) else .isFalse (fun hc => h (Except.error.inj hc))
    | .ok _, .error _ => .isFalse (fun hc => Except.noConfusion hc)
    | .error _, .ok _ => .isFalse (fun hc => Except.noConfusion hc)

structure Manager where
  whitelistedUsers : List (Str × Str)
  merkleTree : Option (List (List (List Nat)))
  merkleRoot : Option (List Nat)
deriving DecidableEq

/-- `new MerkleManager()`: empty map, `merkleTree = null`, `merkleRoot = null`. -/
def initialManager : Manager :=
  { whitelistedUsers := [], merkleTree := none, merkleRoot := none }

/-- The empty-whitelist sentinel root
`0x0000000000000000000000000000000000000000000000000000000000000000`. -/
def zeroRoot : List Nat := List.replicate 32 0

/-- JS `Map.set`: overwrite in place if the key is present, else append. -/
def mapSet (m : List (Str × Str)) (k v : Str) : List (Str × Str) :=
  if m.any (fun p => p.1 == k) then m.map (fun p => if p.1 == k then (k, v) else p)
  else m ++ [(k, v)]

/-- JS `Map.get` (`none` = `undefined`). -/
def mapGet (m : List (Str × Str)) (k : Str) : Option Str :=
  (m.find? (fun p => p.1 == k)).map (fun p => p.2)

/-- JS `Map.has`. -/
def mapHas (m : List (Str × Str)) (k : Str) : Bool := m.any (fun p => p.1 == k)

/-- `generateMerkleTree()`: empty map gives no tree and the zero sentinel
root; otherwise the leaves are computed (here an unparseable stored amount
makes `solidityPack` throw, leaving tree and root untouched) and the sorted
pair tree is rebuilt. -/
def generateMerkleTree (m : Manager) : Manager × Except JsError Unit :=
  if m.whitelistedUsers.isEmpty then
    ({ m with merkleTree := none, merkleRoot := some zeroRoot }, .ok ())
  else
    match computeLeaves m.whitelistedUsers with
    | none => (m, .error .ethersPackError)
    | some leaves =>
      let layers := buildLayers leaves
      ({ m with merkleTree := some layers, merkleRoot := some (rootOf layers) }, .ok ())

/-- The amount guard of `addToWhitelist` / `batchAddToWhitelist`:
`!amount || amount === '0'` rejects exactly the empty string and the literal
string `"0"` (code unit 48). -/
def validAmountStr (s : Str) : Bool := !(s == ([] : Str)) && !(s == [48])

structure AddResult where
  user : Str
  amount : Str
  merkleRoot : Option (List Nat)
deriving DecidableEq

/-- `addToWhitelist(userAddress, amount)`. -/
def addToWhitelist (m : Manager) (userAddress amount : Str) :
    Manager × Except JsError AddResult :=
  if !(isAddress userAddress) then (m, .error .invalidAddressFormat)
  else if !(validAmountStr amount) then (m, .error .invalidAmount)
  else
    let m1 := { m with
      whitelistedUsers := mapSet m.whitelistedUsers (jsToLower userAddress) amount }
    let gen := generateMerkleTree m1
    match gen.2 with
    | .ok _ =>
      (gen.1, .ok { user := userAddress, amount := amount, merkleRoot := gen.1.merkleRoot })
    | .error e => (gen.1, .error e)

/-- Result of `removeFromWhitelist`; the JS object returned for a non-member
has no `merkleRoot` property at all, so that field is optional here
(`none` = property absent). -/
structure RemoveResult where
  user : Str
  removed : Bool
  merkleRoot : Option (Option (List Nat))
deriving DecidableEq

/-- `removeFromWhitelist(userAddress)`: rebuilds only when a record was
actually deleted; for a non-member it returns `{ user, removed: false }`
without touching any state. -/
def removeFromWhitelist (m : Manager) (userAddress : Str) :
    Manager × Except JsError RemoveResult :=
  if !(isAddress userAddress) then (m, .error .invalidAddressFormat)
  else
    let k := jsToLower userAddress
    if mapHas m.whitelistedUsers k then
      let m1 := { m with whitelistedUsers := m.whitelistedUsers.filter (fun p => !(p.1 == k)) }
      let gen := generateMerkleTree m1
      match gen.2 with
      | .ok _ =>
        (gen.1, .ok { user := userAddress, removed := true, merkleRoot := some gen.1.merkleRoot })
      | .error e => (gen.1, .error e)
    else (m, .ok { user := userAddress, removed := false, merkleRoot := none })

structure ProofResult where
  user : Str
  amount : Str
  proof : List (List Nat)
  merkleRoot : Option (List Nat)
  leaf : List Nat
  isValid : Bool
deriving DecidableEq

/-- `getMerkleProof(userAddress)`: read-only; recomputes the member's leaf,
collects the sibling path, locally verifies it against the current root and
returns the outcome in the `isValid` field of the result (there is no abort
path on a failed self-verification). -/
def getMerkleProof (m : Manager) (userAddress : Str) : Except JsError ProofResult :=
  if !(isAddress userAddress) then .error .invalidAddressFormat
  else
    let normalized := jsToLower userAddress
    match mapGet m.whitelistedUsers normalized with
    | none => .error .userNotWhitelisted
    | some amount =>
      -- `if (!amount)`: an empty stored amount string is falsy in JS
      if amount == ([] : Str) then .error .userNotWhitelisted
      else
        match m.merkleTree with
        | none => .error .merkleTreeNotGenerated
        | some layers =>
          match leafHash normalized amount with
          | none => .error .ethersPackError
          | some leaf =>
            let proof := getProofFromTree layers leaf
            let isValid := verifyProof proof leaf (m.merkleRoot.getD [])
            .ok { user := userAddress, amount := amount, proof := proof,
                  merkleRoot := m.merkleRoot, leaf := leaf, isValid := isValid }

structure StatsResult where
  totalUsers : Nat
  merkleRoot : Option (List Nat)
  hasTree : Bool
deriving DecidableEq

/-- `getStats()`. -/
def getStats (m : Manager) : StatsResult :=
  { totalUsers := m.whitelistedUsers.length,
    merkleRoot := m.merkleRoot,
    hasTree := m.merkleTree.isSome }

structure BatchResult where
  added : Nat
  total : Nat
  merkleRoot : Option (List Nat)
deriving DecidableEq

/-- Per-record body of the `batchAddToWhitelist` loop: a record is written
and counted only when the address is valid and the amount passes the same
string guard as `addToWhitelist`; everything else is skipped. -/
def batchStep (acc : List (Str × Str) × Nat) (u : Str × Str) : List (Str × Str) × Nat :=
  if isAddress u.1 && validAmountStr u.2 then
    (mapSet acc.1 (jsToLower u.1) u.2, acc.2 + 1)
  else acc

/-- `batchAddToWhitelist(users)`: processes every record, then rebuilds the
tree once — and only when at least one record was added. -/
def batchAddToWhitelist (m : Manager) (users : List (Str × Str)) :
    Manager × Except JsError BatchResult :=
  let folded := users.foldl batchStep (m.whitelistedUsers, 0)
  let m1 := { m with whitelistedUsers := folded.1 }
  if 0 < folded.2 then
    let gen := generateMerkleTree m1
    match gen.2 with
    | .ok _ =>
      (gen.1, .ok { added := folded.2, total := gen.1.whitelistedUsers.length,
                    merkleRoot := gen.1.merkleRoot })
    | .error e => (gen.1, .error e)
  else
    (m1, .ok { added := folded.2, total := m1.whitelistedUsers.length,
               merkleRoot := m1.merkleRoot })

/-- Snapshot object of `exportWhitelist` / `importWhitelist`.  `users = none`
models a missing `users` property (the `!data.users` guard); the wall-clock
`timestamp` field of the export is not modelled (nothing reads it). -/
structure WhitelistData where
  users : Option (List (Str × Str))
  merkleRoot : Option (List Nat)
deriving DecidableEq

/-- `exportWhitelist()`. -/
def exportWhitelist (m : Manager) : WhitelistData :=
  { users := some m.whitelistedUsers, merkleRoot := m.merkleRoot }

/-- `importWhitelist(data)`: clears the map, re-inserts every entry whose
address is valid (no amount validation at all), then rebuilds once. -/
def importWhitelist (m : Manager) (data : WhitelistData) :
    Manager × Except JsError StatsResult :=
  match data.users with
  | none => (m, .error .invalidWhitelistData)
  | some us =>
    let wl := us.foldl
      (fun acc p => if isAddress p.1 then mapSet acc (jsToLower p.1) p.2 else acc) []
    let m1 := { m with whitelistedUsers := wl }
    let gen := generateMerkleTree m1
    match gen.2 with
    | .ok _ => (gen.1, .ok (getStats gen.1))
    | .error e => (gen.1, .error e)

/-! ### Spec-side definitions (the encodings the specification describes,
stated independently of the `solidityPack` implementation above) -/

/-- Big-endian byte encoding of a natural in `k` bytes (spec formulation,
by recursion instead of the shift table of `packUint256`). -/
def beBytes : Nat → Nat → List Nat
  | 0, _ => []
  | k + 1, n => beBytes k (n / 256) ++ [n % 256]

/-- Leaf encoding described by the spec: Keccak-256 of the 20 address bytes
followed by the 256-bit big-endian amount. -/
def specLeafHash (addr20 : List Nat) (amount : Nat) : List Nat :=
  keccak256 (addr20 ++ beBytes 32 amount)

/-- Sorted pair (byte order) of two hashes, as the spec describes it. -/
def sortPairSpec (a b : List Nat) : (List Nat) × (List Nat) :=
  if bytesLT b a then (b, a) else (a, b)

/-- Internal node encoding described by the spec: hash of the sorted pair of
the two child hashes. -/
def specNodeHash (a b : List Nat) : List Nat :=
  keccak256 ((sortPairSpec a b).1 ++ (sortPairSpec a b).2)

/-! ### Invariants and helper predicates -/

/-- Every key of the whitelist map is a syntactically valid address already
in lowercase canonical form. -/
def KeysCanonical (m : Manager) : Prop :=
  ∀ p ∈ m.whitelistedUsers, isAddress p.1 = true ∧ jsToLower p.1 = p.1

/-- The whitelist keys are pairwise distinct (JS `Map` semantics). -/
def KeysNodup (m : Manager) : Prop := (m.whitelistedUsers.map Prod.fst).Nodup

/-- Every stored amount passes the string guard of `addToWhitelist`
(non-empty and not the literal string `"0"`). -/
def AmountsNonzeroStr (m : Manager) : Prop :=
  ∀ p ∈ m.whitelistedUsers, validAmountStr p.2 = true

/-- The cached tree and root agree with what `generateMerkleTree` would
(re)compute on the current state: rebuilding is a no-op on the state. -/
def Consistent (m : Manager) : Prop := (generateMerkleTree m).1 = m

/-- Projection of a `getMerkleProof` outcome (`none` = the call threw). -/
def okProof : Except JsError ProofResult → Option ProofResult
  | .ok r => some r
  | .error _ => none

/-! ### Concrete inputs used by counterexamples and witnesses -/

/-- The address string `0xaaaaaaaaaaaaaaaaaaaaaaaaaaaaaaaaaaaaaaaa`. -/
def addrA : Str := 48 :: 120 :: List.replicate 40 97

/-- The address string `0xbbbbbbbbbbbbbbbbbbbbbbbbbbbbbbbbbbbbbbbb`. -/
def addrB : Str := 48 :: 120 :: List.replicate 40 98

/-- The address string `0xcccccccccccccccccccccccccccccccccccccccc`. -/
def addrC : Str := 48 :: 120 :: List.replicate 40 99

/-- The malformed address string `zzz`. -/
def badAddr : Str := [122, 122, 122]

/-! ### Helper lemmas -/

theorem lowerCode_idem (n : Nat) : lowerCode (lowerCode n) = lowerCode n := by
  unfold lowerCode
  split
  · split <;> omega
  · rfl

theorem jsToLower_idem (s : Str) : jsToLower (jsToLower s) = jsToLower s := by
  induction s with
  | nil => rfl
  | cons a t ih =>
    simp only [jsToLower, List.map_cons] at *
    rw [lowerCode_idem, ih]

theorem isHexCode_lowerCode {n : Nat} (h : isHexCode n = true) :
    isHexCode (lowerCode n) = true := by
  simp only [isHexCode, isDigitCode, isLowerHexCode, isUpperHexCode, lowerCode,
    Bool.or_eq_true, decide_eq_true_eq] at h ⊢
  split <;> omega

theorem bytesLT_asymm : ∀ {a b : List Nat}, bytesLT a b = true → bytesLT b a = false := by
  intro a
  induction a with
  | nil =>
    intro b _h
    cases b with
    | nil => simp [bytesLT] at _h
    | cons y ys => simp [bytesLT]
  | cons x xs ih =>
    intro b h
    cases b with
    | nil => simp [bytesLT] at h
    | cons y ys =>
      simp only [bytesLT, Bool.or_eq_true, Bool.and_eq_true, decide_eq_true_eq] at h
      simp only [bytesLT, Bool.or_eq_false_iff, Bool.and_eq_false_iff,
        decide_eq_false_iff_not]
      rcases h with h | ⟨rfl, h⟩
      · exact ⟨by omega, Or.inl (by omega)⟩
      · exact ⟨by omega, Or.inr (ih h)⟩

theorem bytesLT_eq_of_not : ∀ {a b : List Nat},
    bytesLT a b = false → bytesLT b a = false → a = b := by
  intro a
  induction a with
  | nil =>
    intro b h1 _
    cases b with
    | nil => rfl
    | cons y ys => simp [bytesLT] at h1
  | cons x xs ih =>
    intro b h1 h2
    cases b with
    | nil => simp [bytesLT] at h2
    | cons y ys =>
      simp only [bytesLT, Bool.or_eq_false_iff, Bool.and_eq_false_iff,
        decide_eq_false_iff_not] at h1 h2
      have hxy : x = y := by
        rcases h1 with ⟨hlt1, _⟩
        rcases h2 with ⟨hlt2, _⟩
        omega
      subst hxy
      rcases h1.2 with h1' | h1'
      · exact absurd rfl h1'
      · rcases h2.2 with h2' | h2'
        · exact absurd rfl h2'
        · rw [ih h1' h2']

theorem hashPair_comm (a b : List Nat) : hashPair a b = hashPair b a := by
  unfold hashPair
  cases h1 : bytesLT b a
  · cases h2 : bytesLT a b
    · rw [bytesLT_eq_of_not h2 h1]
    · simp [h1, h2]
  · cases h2 : bytesLT a b
    · simp [h1, h2]
    · have h3 := bytesLT_asymm h2
      rw [h1] at h3
      simp at h3

theorem gen_whitelist_eq (m : Manager) :
    (generateMerkleTree m).1.whitelistedUsers = m.whitelistedUsers := by
  unfold generateMerkleTree
  split
  · rfl
  · split <;> rfl

theorem gen_empty (m : Manager) (h : m.whitelistedUsers = []) :
    generateMerkleTree m =
      ({ m with merkleTree := none, merkleRoot := some zeroRoot }, .ok ()) := by
  simp [generateMerkleTree, h]

theorem mapSet_append {m : List (Str × Str)} {k v : Str}
    (h : m.any (fun p => p.1 == k) = false) : mapSet m k v = m ++ [(k, v)] := by
  simp [mapSet, h]

theorem mem_mapSet {m : List (Str × Str)} {k v : Str} {p : Str × Str}
    (h : p ∈ mapSet m k v) : p ∈ m ∨ p = (k, v) := by
  unfold mapSet at h
  split at h
  · rcases List.mem_map.1 h with ⟨q, hq, hqe⟩
    split at hqe
    · right; exact hqe.symm
    · left; rw [← hqe]; exact hq
  · rcases List.mem_append.1 h with h' | h'
    · left; exact h'
    · right; exact List.mem_singleton.1 h'

theorem buildLayers_headD (l : List (List Nat)) : (buildLayers l).headD [] = l := by
  unfold buildLayers
  cases hl : l.length with
  | zero => simp [buildLayersAux]
  | succ k =>
    simp only [buildLayersAux]
    split <;> simp

theorem isUpperHexCode_lowerCode' (n : Nat) : isUpperHexCode (lowerCode n) = false := by
  simp only [isUpperHexCode, lowerCode, decide_eq_false_iff_not]
  split <;> omega

theorem all_hex_lower {ds : Str} (h : ds.all isHexCode = true) :
    (jsToLower ds).all isHexCode = true := by
  simp only [List.all_eq_true] at h ⊢
  intro x hx
  simp only [jsToLower] at hx
  rcases List.mem_map.1 hx with ⟨y, hy, rfl⟩
  exact isHexCode_lowerCode (h y hy)

theorem hasMixed_lower (ds : Str) : hasMixedHexCase (jsToLower ds) = false := by
  simp only [hasMixedHexCase, Bool.and_eq_false_iff]
  left
  simp only [jsToLower, List.any_map, List.any_eq_false, Function.comp]
  intro x _
  simp [isUpperHexCode_lowerCode']

theorem addrChecks_lower {ds : Str}
    (hlen : (ds.length == 40) = true) (hhex : ds.all isHexCode = true) :
    ((jsToLower ds).length == 40 && (jsToLower ds).all isHexCode &&
      (!(hasMixedHexCase (jsToLower ds)) ||
        checksumDigits (jsToLower (jsToLower ds)) == jsToLower ds)) = true := by
  simp only [Bool.and_eq_true, Bool.or_eq_true]
  refine ⟨⟨?_, all_hex_lower hhex⟩, Or.inl ?_⟩
  · simpa [jsToLower] using hlen
  · rw [hasMixed_lower]
    rfl

theorem lowerCode_ne_120 {b : Nat} (hb : isHexCode b = true) : lowerCode b ≠ 120 := by
  simp only [isHexCode, isDigitCode, isLowerHexCode, isUpperHexCode, Bool.or_eq_true,
    decide_eq_true_eq] at hb
  unfold lowerCode
  split <;> omega

theorem isAddress_toLower {s : Str} (h : isAddress s = true) :
    isAddress (jsToLower s) = true := by
  cases s with
  | nil => simp [isAddress, stripHexMark] at h
  | cons a s1 =>
    cases s1 with
    | nil => simp [isAddress, stripHexMark] at h
    | cons b t =>
      by_cases hab : a = 48 ∧ b = 120
      · rcases hab with ⟨rfl, rfl⟩
        have h' : (t.length == 40 && t.all isHexCode &&
            (!(hasMixedHexCase t) || checksumDigits (jsToLower t) == t)) = true := by
          simpa [isAddress, stripHexMark] using h
        simp only [Bool.and_eq_true] at h'
        simp only [jsToLower, List.map_cons]
        rw [show lowerCode 48 = 48 from rfl, show lowerCode 120 = 120 from rfl]
        have : isAddress (48 :: 120 :: List.map lowerCode t) =
            ((jsToLower t).length == 40 && (jsToLower t).all isHexCode &&
              (!(hasMixedHexCase (jsToLower t)) ||
                checksumDigits (jsToLower (jsToLower t)) == jsToLower t)) := by
          simp [isAddress, stripHexMark, jsToLower]
        rw [this]
        exact addrChecks_lower h'.1.1 h'.1.2
      · have hs : stripHexMark (a :: b :: t) = a :: b :: t := by
          simp [stripHexMark, hab]
        have h' : ((a :: b :: t).length == 40 && (a :: b :: t).all isHexCode &&
            (!(hasMixedHexCase (a :: b :: t)) ||
              checksumDigits (jsToLower (a :: b :: t)) == (a :: b :: t))) = true := by
          simpa [isAddress, hs] using h
        simp only [Bool.and_eq_true] at h'
        have hbhex : isHexCode b = true := by
          have := (List.all_eq_true.1 h'.1.2) b (by simp)
          exact this
        have hb120 : lowerCode b ≠ 120 := lowerCode_ne_120 hbhex
        have hs2 : stripHexMark (jsToLower (a :: b :: t)) = jsToLower (a :: b :: t) := by
          simp only [jsToLower, List.map_cons, stripHexMark]
          rw [if_neg]
          intro hcon
          exact hb120 hcon.2
        have hgoal : isAddress (jsToLower (a :: b :: t)) =
            ((jsToLower (a :: b :: t)).length == 40 &&
              (jsToLower (a :: b :: t)).all isHexCode &&
              (!(hasMixedHexCase (jsToLower (a :: b :: t))) ||
                checksumDigits (jsToLower (jsToLower (a :: b :: t))) ==
                  jsToLower (a :: b :: t))) := by
          simp only [isAddress, hs2]
        rw [hgoal]
        exact addrChecks_lower h'.1.1 h'.1.2

theorem mapGet_at {wl : List (Str × Str)} : ∀ {i : Nat} {k amt : Str},
    (wl.map Prod.fst).Nodup → wl[i]? = some (k, amt) → mapGet wl k = some amt := by
  induction wl with
  | nil => intro i k amt _ hg; simp at hg
  | cons q rest ih =>
    intro i k amt hnd hg
    cases i with
    | zero =>
      simp only [List.getElem?_cons_zero, Option.some_inj] at hg
      subst hg
      simp [mapGet]
    | succ j =>
      simp only [List.getElem?_cons_succ] at hg
      have hkmem : (k, amt) ∈ rest := List.getElem?_mem hg
      have hk : k ∈ rest.map Prod.fst := List.mem_map.2 ⟨(k, amt), hkmem, rfl⟩
      rcases List.nodup_cons.1 hnd with ⟨hq, hnd'⟩
      have hqk : ¬ ((fun p => p.1 == k) q = true) := by
        simp only [beq_iff_eq]
        intro hqe
        exact hq (hqe ▸ hk)
      simp only [mapGet]
      rw [List.find?_cons_of_neg rest hqk]
      exact ih hnd' hg

theorem computeLeaves_at {wl : List (Str × Str)} :
    ∀ {ls : List (List Nat)} {i : Nat} {p : Str × Str},
    computeLeaves wl = some ls → wl[i]? = some p →
    ∃ l, leafHash p.1 p.2 = some l ∧ ls[i]? = some l := by
  induction wl with
  | nil => intro ls i p _ hg; simp at hg
  | cons q rest ih =>
    intro ls i p h hg
    rcases hleaf : leafHash q.1 q.2 with _ | l0
    · simp [computeLeaves, hleaf] at h
    · rcases hrest : computeLeaves rest with _ | ls0
      · simp [computeLeaves, hleaf, hrest] at h
      · simp only [computeLeaves, hleaf, hrest, Option.some_inj] at h
        subst h
        cases i with
        | zero =>
          simp only [List.getElem?_cons_zero, Option.some_inj] at hg
          subst hg
          exact ⟨l0, hleaf, by simp⟩
        | succ j =>
          simp only [List.getElem?_cons_succ] at hg
          rcases ih hrest hg with ⟨l, hl, hls⟩
          exact ⟨l, hl, by simpa using hls⟩

theorem import_fold_id : ∀ (us acc : List (Str × Str)),
    (∀ p ∈ us, isAddress p.1 = true ∧ jsToLower p.1 = p.1) →
    (us.map Prod.fst).Nodup →
    (∀ p ∈ us, acc.any (fun q => q.1 == p.1) = false) →
    us.foldl (fun acc p => if isAddress p.1 then mapSet acc (jsToLower p.1) p.2 else acc) acc
      = acc ++ us := by
  intro us
  induction us with
  | nil => intro acc _ _ _; simp
  | cons u rest ih =>
    intro acc hcan hnd hdisj
    rcases hcan u (by simp) with ⟨hu1, hu2⟩
    have hstep : mapSet acc (jsToLower u.1) u.2 = acc ++ [u] := by
      rw [hu2, mapSet_append (hdisj u (by simp))]
    simp only [List.foldl_cons, hu1, if_true, hstep]
    rcases List.nodup_cons.1 hnd with ⟨hknotin, hnd'⟩
    have hdisj' : ∀ p ∈ rest, (acc ++ [u]).any (fun q => q.1 == p.1) = false := by
      intro p hp
      rw [List.any_append]
      simp only [Bool.or_eq_false_iff]
      constructor
      · exact hdisj p (by simp [hp])
      · simp only [List.any_cons, List.any_nil, Bool.or_false, beq_eq_false_iff_ne]
        intro hup
        exact hknotin (hup ▸ List.mem_map.2 ⟨p, hp, rfl⟩)
    rw [ih (acc ++ [u]) (fun p hp => hcan p (by simp [hp])) hnd' hdisj']
    simp

theorem batch_fold : ∀ (users acc : List (Str × Str)) (n : Nat),
    users.foldl batchStep (acc, n) =
      ((users.filter (fun u => isAddress u.1 && validAmountStr u.2)).foldl
          (fun a u => mapSet a (jsToLower u.1) u.2) acc,
        n + users.countP (fun u => isAddress u.1 && validAmountStr u.2)) := by
  intro users
  induction users with
  | nil => intro acc n; simp
  | cons u rest ih =>
    intro acc n
    by_cases hu : (isAddress u.1 && validAmountStr u.2) = true
    · simp only [List.foldl_cons, batchStep, hu, if_true, List.filter_cons, ih,
        List.countP_cons]
      simp [hu]
      omega
    · have hu' : (isAddress u.1 && validAmountStr u.2) = false := by
        cases hx : (isAddress u.1 && validAmountStr u.2)
        · rfl
        · exact absurd hx hu
      simp only [List.foldl_cons, batchStep, hu', if_false, ih, List.filter_cons,
        List.countP_cons]
      simp [hu']

theorem gen_nonempty {m : Manager} {ls : List (List Nat)}
    (hne : m.whitelistedUsers ≠ []) (h : computeLeaves m.whitelistedUsers = some ls) :
    generateMerkleTree m =
      ({ m with merkleTree := some (buildLayers ls),
                merkleRoot := some (rootOf (buildLayers ls)) }, .ok ()) := by
  unfold generateMerkleTree
  rw [if_neg (by simpa using hne), h]

/-! ### Claim C7 -/

/-- Claim C7 counterexample: on the amount string `"-5"` (a negative
amount), `addToWhitelist` does not signal `InvalidAmount` at all — the guard
`!amount || amount === '0'` lets the record through, the whitelist is
mutated, and the rebuild succeeds (`solidityPack`'s `toTwos(256)` wraps the
negative value two's-complement), so the call returns normally with a root
committing to the wrapped amount. -/
theorem c7_negative_amount_mutates :
    (addToWhitelist initialManager addrA [45, 53]).1.whitelistedUsers
      = [(addrA, [45, 53])] ∧
    (addToWhitelist initialManager addrA [45, 53]).2.isOk = true ∧
    parseBigNum [45, 53] = some (-5) ∧
    validAmountStr [45, 53] = true := by
  refine ⟨by decide, by decide, by decide, by decide⟩

/-- Claim C7 (amended): `addEntitlement` signals `InvalidAddress` for every
malformed address and `InvalidAmount` exactly for the empty amount string and
the literal string `"0"`; in these validation failures the state (whitelist,
tree and root) is unchanged.  (Other zero, negative or unparseable amounts
pass validation and mutate the whitelist: a negative amount is committed
two's-complement-wrapped, an unparseable one later makes the rebuild
throw.) -/
theorem c7_validation_errors :
    (∀ (m : Manager) (a amt : Str), isAddress a = false →
        addToWhitelist m a amt = (m, .error .invalidAddressFormat)) ∧
    (∀ (m : Manager) (a amt : Str), isAddress a = true → (amt = [] ∨ amt = [48]) →
        addToWhitelist m a amt = (m, .error .invalidAmount)) := by
  constructor
  · intro m a amt h
    simp [addToWhitelist, h]
  · intro m a amt ha hv
    have hv' : validAmountStr amt = false := by
      rcases hv with rfl | rfl <;> rfl
    simp [addToWhitelist, ha, hv']

/-- Witness for C7: concrete invalid inputs exercising both error paths. -/
theorem c7_validation_errors_witness :
    addToWhitelist initialManager badAddr [49]
        = (initialManager, .error .invalidAddressFormat) ∧
    addToWhitelist initialManager addrA [48]
        = (initialManager, .error .invalidAmount) :=
  ⟨c7_validation_errors.1 initialManager badAddr [49] (by decide),
   c7_validation_errors.2 initialManager addrA [48] (by decide) (Or.inr rfl)⟩

/-! ### Claim C8 -/

/-- Claim C8 counterexample: removing a syntactically valid non-member does
return `removed: false` with the state untouched, but the returned object is
`{ user, removed: false }` with NO root field at all (`merkleRoot := none` in
the optional-field encoding), not the claimed `{address, removed, root}`
shape carrying the unchanged root (`some initialManager.merkleRoot`). -/
theorem c8_nonmember_result_lacks_root :
    removeFromWhitelist initialManager addrA
        = (initialManager, .ok { user := addrA, removed := false, merkleRoot := none }) ∧
    (none : Option (Option (List Nat))) ≠ some initialManager.merkleRoot := by
  exact ⟨by decide, by decide⟩

/-- Claim C8 (amended): for every syntactically valid address that is not a
member, `removeEntitlement` is a complete no-op: the manager state is
returned unchanged (no rebuild, root and tree untouched) and the result is
`{ user, removed: false }` with no root field. -/
theorem c8_nonmember_noop (m : Manager) (a : Str) (ha : isAddress a = true)
    (hmem : mapHas m.whitelistedUsers (jsToLower a) = false) :
    removeFromWhitelist m a =
      (m, .ok { user := a, removed := false, merkleRoot := none }) := by
  simp [removeFromWhitelist, ha, hmem]

/-- Witness for C8: the empty manager and a valid address. -/
theorem c8_nonmember_noop_witness :
    removeFromWhitelist initialManager addrB =
      (initialManager, .ok { user := addrB, removed := false, merkleRoot := none }) :=
  c8_nonmember_noop initialManager addrB (by decide) (by decide)

/-! ### Claim C9 -/

/-- Claim C9 counterexample: in the initial state the root is `null`
(`none`), NOT the 32-byte zero sentinel; consequently the root observed
before any mutation differs from the root after removing the last member
(which IS the sentinel, set by the rebuild on the emptied whitelist). -/
theorem c9_initial_root_is_null :
    initialManager.merkleRoot = none ∧
    (none : Option (List Nat)) ≠ some zeroRoot ∧
    (removeFromWhitelist (addToWhitelist initialManager addrA [49]).1 addrA).1.merkleRoot
      = some zeroRoot := by
  refine ⟨rfl, by decide, by decide⟩

/-- Claim C9 (amended): initially both tree and root are `null`; whenever a
rebuild runs on an empty whitelist it sets no tree and the zero sentinel
root, so the sentinel holds after any mutation that empties the whitelist —
but the pre-mutation `null` root differs from that sentinel. -/
theorem c9_empty_whitelist_sentinel :
    initialManager.merkleTree = none ∧ initialManager.merkleRoot = none ∧
    (∀ m : Manager, m.whitelistedUsers = [] →
      generateMerkleTree m =
        ({ m with merkleTree := none, merkleRoot := some zeroRoot }, .ok ())) :=
  ⟨rfl, rfl, fun m h => gen_empty m h⟩

/-- Witness for C9: the rebuild on the concrete empty manager. -/
theorem c9_empty_whitelist_sentinel_witness :
    generateMerkleTree initialManager =
      ({ initialManager with merkleTree := none, merkleRoot := some zeroRoot }, .ok ()) :=
  c9_empty_whitelist_sentinel.2.2 initialManager rfl

theorem addToWhitelist_fst (m : Manager) (a amt : Str) :
    (addToWhitelist m a amt).1.whitelistedUsers =
      if isAddress a && validAmountStr amt then
        mapSet m.whitelistedUsers (jsToLower a) amt
      else m.whitelistedUsers := by
  unfold addToWhitelist
  cases ha : isAddress a
  · simp [ha]
  · cases hv : validAmountStr amt
    · simp [ha, hv]
    · simp only [ha, hv, Bool.not_true, Bool.false_eq_true, if_false, Bool.and_self, if_true]
      split <;> exact gen_whitelist_eq _

theorem remove_fst_subset (m : Manager) (a : Str) :
    ∀ p ∈ (removeFromWhitelist m a).1.whitelistedUsers, p ∈ m.whitelistedUsers := by
  unfold removeFromWhitelist
  cases ha : isAddress a
  · simp [ha]
  · cases hmem : mapHas m.whitelistedUsers (jsToLower a)
    · simp [ha, hmem]
    · simp only [ha, hmem, Bool.not_true, Bool.false_eq_true, if_false, if_true]
      intro p hp
      have : p ∈ (generateMerkleTree
          { m with whitelistedUsers :=
              m.whitelistedUsers.filter (fun q => !(q.1 == jsToLower a)) }).1.whitelistedUsers := by
        revert hp
        split <;> exact fun hp => hp
      rw [gen_whitelist_eq] at this
      exact (List.mem_filter.1 this).1

theorem batch_fst (m : Manager) (users : List (Str × Str)) :
    (batchAddToWhitelist m users).1.whitelistedUsers =
      (users.filter (fun u => isAddress u.1 && validAmountStr u.2)).foldl
        (fun a u => mapSet a (jsToLower u.1) u.2) m.whitelistedUsers := by
  unfold batchAddToWhitelist
  rw [batch_fold users m.whitelistedUsers 0]
  simp only [Nat.zero_add]
  split
  · split <;> exact gen_whitelist_eq _
  · rfl

theorem import_fst (m : Manager) (d : WhitelistData) :
    (importWhitelist m d).1.whitelistedUsers =
      match d.users with
      | none => m.whitelistedUsers
      | some us =>
        us.foldl (fun acc p => if isAddress p.1 then mapSet acc (jsToLower p.1) p.2 else acc)
          [] := by
  unfold importWhitelist
  cases hd : d.users with
  | none => rfl
  | some us =>
    simp only []
    split <;> exact gen_whitelist_eq _

theorem fold_mapSet_amounts : ∀ (l acc : List (Str × Str)),
    (∀ p ∈ acc, validAmountStr p.2 = true) →
    (∀ p ∈ l, validAmountStr p.2 = true) →
    ∀ p ∈ l.foldl (fun a u => mapSet a (jsToLower u.1) u.2) acc, validAmountStr p.2 = true := by
  intro l
  induction l with
  | nil => intro acc hacc _ p hp; exact hacc p hp
  | cons u rest ih =>
    intro acc hacc hl p hp
    simp only [List.foldl_cons] at hp
    refine ih (mapSet acc (jsToLower u.1) u.2) ?_ (fun q hq => hl q (by simp [hq])) p hp
    intro q hq
    rcases mem_mapSet hq with h | h
    · exact hacc q h
    · rw [h]
      exact hl u (by simp)

theorem fold_mapSet_keys : ∀ (l acc : List (Str × Str)),
    (∀ p ∈ acc, isAddress p.1 = true ∧ jsToLower p.1 = p.1) →
    (∀ p ∈ l, isAddress p.1 = true) →
    ∀ p ∈ l.foldl (fun a u => mapSet a (jsToLower u.1) u.2) acc,
      isAddress p.1 = true ∧ jsToLower p.1 = p.1 := by
  intro l
  induction l with
  | nil => intro acc hacc _ p hp; exact hacc p hp
  | cons u rest ih =>
    intro acc hacc hl p hp
    simp only [List.foldl_cons] at hp
    refine ih (mapSet acc (jsToLower u.1) u.2) ?_ (fun q hq => hl q (by simp [hq])) p hp
    intro q hq
    rcases mem_mapSet hq with h | h
    · exact hacc q h
    · rw [h]
      exact ⟨isAddress_toLower (hl u (by simp)), jsToLower_idem u.1⟩

theorem fold_import_keys : ∀ (l acc : List (Str × Str)),
    (∀ p ∈ acc, isAddress p.1 = true ∧ jsToLower p.1 = p.1) →
    ∀ p ∈ l.foldl
        (fun acc p => if isAddress p.1 then mapSet acc (jsToLower p.1) p.2 else acc) acc,
      isAddress p.1 = true ∧ jsToLower p.1 = p.1 := by
  intro l
  induction l with
  | nil => intro acc hacc p hp; exact hacc p hp
  | cons u rest ih =>
    intro acc hacc p hp
    simp only [List.foldl_cons] at hp
    cases hu : isAddress u.1
    · rw [hu] at hp
      simp only [Bool.false_eq_true, if_false] at hp
      exact ih acc hacc p hp
    · rw [hu] at hp
      simp only [if_true] at hp
      refine ih (mapSet acc (jsToLower u.1) u.2) ?_ p hp
      intro q hq
      rcases mem_mapSet hq with h | h
      · exact hacc q h
      · rw [h]
        exact ⟨isAddress_toLower hu, jsToLower_idem u.1⟩

/-! ### Claim C4 -/

/-- Claim C4 counterexample: `importWhitelist` performs no amount validation
at all — importing a record with the literal zero amount string `"0"`
succeeds and leaves a present record whose amount is zero, refuting both the
positive-amount invariant and the claim that import applies the same amount
rules as `addEntitlement` (which rejects `"0"`). -/
theorem c4_import_zero_amount :
    (importWhitelist initialManager
        { users := some [(addrA, [48])], merkleRoot := none }).1.whitelistedUsers
      = [(addrA, [48])] ∧
    parseBigNum [48] = some 0 ∧
    validAmountStr [48] = false := by
  refine ⟨by decide, by decide, by decide⟩

/-- Claim C4 (amended): `addEntitlement`, `removeEntitlement` and
`batchAddEntitlements` preserve the invariant that every stored amount passes
the insertion guard (non-empty and not the literal string `"0"`), and the
initial state satisfies it; `importSnapshot` validates addresses only and
gives no such guarantee (zero amounts may be present after an import). -/
theorem c4_amount_guard :
    AmountsNonzeroStr initialManager ∧
    (∀ (m : Manager) (a amt : Str),
      AmountsNonzeroStr m → AmountsNonzeroStr ((addToWhitelist m a amt).1)) ∧
    (∀ (m : Manager) (a : Str),
      AmountsNonzeroStr m → AmountsNonzeroStr ((removeFromWhitelist m a).1)) ∧
    (∀ (m : Manager) (us : List (Str × Str)),
      AmountsNonzeroStr m → AmountsNonzeroStr ((batchAddToWhitelist m us).1)) := by
  refine ⟨?_, ?_, ?_, ?_⟩
  · intro p hp
    simp [initialManager] at hp
  · intro m a amt h p hp
    rw [addToWhitelist_fst] at hp
    split at hp
    · rename_i hc
      rcases mem_mapSet hp with h' | h'
      · exact h p h'
      · rw [h']
        exact (Bool.and_eq_true_iff.1 hc).2
    · exact h p hp
  · intro m a h p hp
    exact h p (remove_fst_subset m a p hp)
  · intro m us h p hp
    rw [batch_fst] at hp
    refine fold_mapSet_amounts _ m.whitelistedUsers h ?_ p hp
    intro q hq
    exact (Bool.and_eq_true_iff.1 ((List.mem_filter.1 hq).2)).2

/-- Witness for C4: the guard invariant propagated through one concrete
`addToWhitelist` call. -/
theorem c4_amount_guard_witness :
    AmountsNonzeroStr ((addToWhitelist initialManager addrA [49]).1) :=
  c4_amount_guard.2.1 initialManager addrA [49]
    (fun p hp => absurd hp (List.not_mem_nil p))

/-! ### Claim C6 -/

/-- Claim C6 counterexample: a batch in which every record fails validation
performs NO tree rebuild at all (not "exactly one"): after batching one
invalid record into the fresh manager the root is still `null`, whereas any
run of `generateMerkleTree` would have set it (here to the zero sentinel). -/
theorem c6_no_rebuild_for_allinvalid_batch :
    (batchAddToWhitelist initialManager [(badAddr, [49])]).1.merkleRoot = none ∧
    (generateMerkleTree
        (batchAddToWhitelist initialManager [(badAddr, [49])]).1).1.merkleRoot
      = some zeroRoot ∧
    (none : Option (List Nat)) ≠ some zeroRoot := by
  refine ⟨by decide, by decide, by decide⟩

/-- Claim C6 (amended): `batchAddEntitlements` skips every record failing
validation without aborting the batch (the final whitelist is the fold of
the valid records only), performs at most one rebuild — exactly one, after
the whole batch, when at least one record was added, and none otherwise —
and on a normal return `addedCount` is the number of records that passed
validation and `total` is the whitelist size after the batch. -/
theorem c6_batch_behaviour (m : Manager) (users : List (Str × Str)) :
    (∀ wl : List (Str × Str),
      wl = (users.filter (fun u => isAddress u.1 && validAmountStr u.2)).foldl
          (fun a u => mapSet a (jsToLower u.1) u.2) m.whitelistedUsers →
      (batchAddToWhitelist m users).1 =
        if 0 < users.countP (fun u => isAddress u.1 && validAmountStr u.2) then
          (generateMerkleTree { m with whitelistedUsers := wl }).1
        else { m with whitelistedUsers := wl }) ∧
    (∀ r, (batchAddToWhitelist m users).2 = .ok r →
      r.added = users.countP (fun u => isAddress u.1 && validAmountStr u.2) ∧
      r.total = (batchAddToWhitelist m users).1.whitelistedUsers.length) := by
  constructor
  · intro wl hwl
    subst hwl
    unfold batchAddToWhitelist
    rw [batch_fold users m.whitelistedUsers 0]
    simp only [Nat.zero_add]
    split
    · split <;> rfl
    · rfl
  · intro r hr
    revert hr
    unfold batchAddToWhitelist
    rw [batch_fold users m.whitelistedUsers 0]
    simp only [Nat.zero_add]
    split
    · split
      · intro hr
        have hr' := Except.ok.inj hr
        rw [← hr']
        exact ⟨rfl, rfl⟩
      · intro hr
        exact absurd hr (by simp)
    · intro hr
      have hr' := Except.ok.inj hr
      rw [← hr']
      exact ⟨rfl, rfl⟩

/-- Witness for C6: the empty batch on the fresh manager adds nothing,
rebuilds nothing, and leaves the state unchanged. -/
theorem c6_batch_behaviour_witness :
    (batchAddToWhitelist initialManager []).1 = initialManager := by
  have h := (c6_batch_behaviour initialManager []).1 [] (by decide)
  simpa [initialManager] using h

/-! ### Claim C10 -/

/-- Claim C10: every key stored in the whitelist map is the lowercase
canonical form of a syntactically valid address — it holds initially and is
preserved by `addToWhitelist`, `removeFromWhitelist`, `batchAddToWhitelist`
and `importWhitelist`, since every insertion path validates the address and
lowercases it before use as a key. -/
theorem c10_keys_canonical :
    KeysCanonical initialManager ∧
    (∀ (m : Manager) (a amt : Str),
      KeysCanonical m → KeysCanonical ((addToWhitelist m a amt).1)) ∧
    (∀ (m : Manager) (a : Str),
      KeysCanonical m → KeysCanonical ((removeFromWhitelist m a).1)) ∧
    (∀ (m : Manager) (us : List (Str × Str)),
      KeysCanonical m → KeysCanonical ((batchAddToWhitelist m us).1)) ∧
    (∀ (m : Manager) (d : WhitelistData),
      KeysCanonical m → KeysCanonical ((importWhitelist m d).1)) := by
  refine ⟨?_, ?_, ?_, ?_, ?_⟩
  · intro p hp
    simp [initialManager] at hp
  · intro m a amt h p hp
    rw [addToWhitelist_fst] at hp
    split at hp
    · rename_i hc
      rcases mem_mapSet hp with h' | h'
      · exact h p h'
      · rw [h']
        exact ⟨isAddress_toLower (Bool.and_eq_true_iff.1 hc).1, jsToLower_idem a⟩
    · exact h p hp
  · intro m a h p hp
    exact h p (remove_fst_subset m a p hp)
  · intro m us h p hp
    rw [batch_fst] at hp
    refine fold_mapSet_keys _ m.whitelistedUsers h ?_ p hp
    intro q hq
    exact (Bool.and_eq_true_iff.1 ((List.mem_filter.1 hq).2)).1
  · intro m d h p hp
    rw [import_fst] at hp
    cases hd : d.users with
    | none =>
      rw [hd] at hp
      exact h p hp
    | some us =>
      rw [hd] at hp
      exact fold_import_keys us [] (fun q hq => absurd hq (List.not_mem_nil q)) p hp

/-- Witness for C10: canonicity after one concrete insertion. -/
theorem c10_keys_canonical_witness :
    KeysCanonical ((addToWhitelist initialManager addrA [49]).1) :=
  c10_keys_canonical.2.1 initialManager addrA [49]
    (fun p hp => absurd hp (List.not_mem_nil p))

theorem root_two (la lb : List Nat) : rootOf (buildLayers [la, lb]) = hashPair la lb := by
  simp [buildLayers, buildLayersAux, nextLayer, rootOf]

theorem add_to_empty (m : Manager) (a x : Str) (la : List Nat)
    (hwl : m.whitelistedUsers = []) (ha : isAddress a = true)
    (hx : validAmountStr x = true) (hla : leafHash (jsToLower a) x = some la) :
    (addToWhitelist m a x).1 =
      { m with whitelistedUsers := [(jsToLower a, x)],
               merkleTree := some (buildLayers [la]),
               merkleRoot := some (rootOf (buildLayers [la])) } := by
  have hset : mapSet m.whitelistedUsers (jsToLower a) x = [(jsToLower a, x)] := by
    rw [hwl]
    rfl
  have hcl : computeLeaves [(jsToLower a, x)] = some [la] := by
    simp [computeLeaves, hla]
  unfold addToWhitelist
  simp only [ha, hx, Bool.not_true, Bool.false_eq_true, if_false, hset]
  rw [gen_nonempty (by simp) hcl]

theorem add_to_single_root (m : Manager) (b y : Str) (k1 x1 : Str) (l1 lb : List Nat)
    (hwl : m.whitelistedUsers = [(k1, x1)])
    (hb : isAddress b = true) (hy : validAmountStr y = true)
    (hne : (k1 == jsToLower b) = false)
    (hl1 : leafHash k1 x1 = some l1)
    (hlb : leafHash (jsToLower b) y = some lb) :
    (addToWhitelist m b y).1.merkleRoot = some (hashPair l1 lb) := by
  have hset : mapSet m.whitelistedUsers (jsToLower b) y = [(k1, x1), (jsToLower b, y)] := by
    rw [hwl]
    simp [mapSet, hne]
  have hcl : computeLeaves [(k1, x1), (jsToLower b, y)] = some [l1, lb] := by
    simp [computeLeaves, hl1, hlb]
  unfold addToWhitelist
  simp only [hb, hy, Bool.not_true, Bool.false_eq_true, if_false, hset]
  rw [gen_nonempty (by simp) hcl]
  simp [root_two]

/-! ### Claim C1 -/

/-- Claim C1 counterexample: the whitelists obtained by inserting the same
three records `(A,1), (B,2), (C,3)` in two different orders hold exactly the
same set of records, yet the two Merkle roots differ — merkletreejs is
configured with `sortPairs` only (leaves are NOT sorted), so the root depends
on the JS `Map` insertion order and is not a pure function of the record
set. -/
theorem c1_root_depends_on_order :
    (addToWhitelist (addToWhitelist (addToWhitelist initialManager
        addrA [49]).1 addrB [50]).1 addrC [51]).1.whitelistedUsers
      = [(addrA, [49]), (addrB, [50]), (addrC, [51])] ∧
    (addToWhitelist (addToWhitelist (addToWhitelist initialManager
        addrC [51]).1 addrB [50]).1 addrA [49]).1.whitelistedUsers
      = [(addrC, [51]), (addrB, [50]), (addrA, [49])] ∧
    (addToWhitelist (addToWhitelist (addToWhitelist initialManager
        addrA [49]).1 addrB [50]).1 addrC [51]).1.merkleRoot
      ≠ (addToWhitelist (addToWhitelist (addToWhitelist initialManager
        addrC [51]).1 addrB [50]).1 addrA [49]).1.merkleRoot := by
  refine ⟨by decide, by decide, by decide⟩

/-- Claim C1 (amended): for a two-record whitelist the insertion order is
irrelevant — inserting A then B into an empty whitelist yields the same root
as inserting B then A, because the single pair is hashed in sorted order;
with three or more records the root depends on the insertion order (it is a
function of the record sequence, not of the record set). -/
theorem c1_pair_insert_comm (m : Manager) (a b x y : Str) (la lb : List Nat)
    (hwl : m.whitelistedUsers = [])
    (ha : isAddress a = true) (hb : isAddress b = true)
    (hx : validAmountStr x = true) (hy : validAmountStr y = true)
    (hne : jsToLower a ≠ jsToLower b)
    (hla : leafHash (jsToLower a) x = some la)
    (hlb : leafHash (jsToLower b) y = some lb) :
    (addToWhitelist (addToWhitelist m a x).1 b y).1.merkleRoot
      = (addToWhitelist (addToWhitelist m b y).1 a x).1.merkleRoot := by
  have s1 := add_to_empty m a x la hwl ha hx hla
  have s2 := add_to_empty m b y lb hwl hb hy hlb
  have r1 := add_to_single_root ((addToWhitelist m a x).1) b y (jsToLower a) x la lb
    (by rw [s1]) hb hy (beq_eq_false_iff_ne.2 hne) hla hlb
  have r2 := add_to_single_root ((addToWhitelist m b y).1) a x (jsToLower b) y lb la
    (by rw [s2]) ha hx (beq_eq_false_iff_ne.2 (Ne.symm hne)) hlb hla
  rw [r1, r2, hashPair_comm]

/-- Witness for C1: two concrete records inserted in both orders. -/
theorem c1_pair_insert_comm_witness :
    (addToWhitelist (addToWhitelist initialManager addrA [49]).1 addrB [50]).1.merkleRoot
      = (addToWhitelist (addToWhitelist initialManager addrB [50]).1 addrA [49]).1.merkleRoot :=
  c1_pair_insert_comm initialManager addrA addrB [49] [50]
    ((leafHash (jsToLower addrA) [49]).getD [])
    ((leafHash (jsToLower addrB) [50]).getD [])
    rfl (by decide) (by decide) (by decide) (by decide) (by decide) (by decide) (by decide)

/-! ### Claim C3 -/

/-- Claim C3 counterexample: a reachable state in which the self-verification
fails, yet `getMerkleProof` RETURNS the proof (with `isValid: false`) instead
of aborting.  Reached by `add(A,"1")` (tree built), `add(B,"abc")` (map
mutated, rebuild throws on the unparseable amount, tree left stale), then
`add(A,"5")` (map updated, rebuild throws again): now `getMerkleProof(A)`
computes the leaf for amount 5, finds it nowhere in the stale tree, returns
the empty proof, and verification against the stale root fails — the result
is still an `ok` carrying `isValid = false`; no `InternalInconsistency`
error exists anywhere in the code. -/
theorem c3_returns_failing_proof :
    (okProof (getMerkleProof
        (addToWhitelist (addToWhitelist (addToWhitelist initialManager
          addrA [49]).1 addrB [97, 98, 99]).1 addrA [53]).1
        addrA)).map ProofResult.isValid = some false := by
  decide

/-- Claim C3 (amended): `getMerkleProof` does re-verify the proof it just
built against the current root, but it reports the outcome in the `isValid`
field of the returned result — whenever the call returns normally, `isValid`
equals exactly the local verification of the returned proof and leaf against
the current root; there is no abort path for a failed self-verification. -/
theorem c3_self_check_reported (m : Manager) (a : Str) (r : ProofResult)
    (h : okProof (getMerkleProof m a) = some r) :
    r.isValid = verifyProof r.proof r.leaf (m.merkleRoot.getD []) := by
  cases hA : isAddress a
  · have hv : getMerkleProof m a = .error .invalidAddressFormat := by
      unfold getMerkleProof
      simp [hA]
    rw [hv] at h
    simp [okProof] at h
  · rcases hG : mapGet m.whitelistedUsers (jsToLower a) with _ | amount
    · have hv : getMerkleProof m a = .error .userNotWhitelisted := by
        unfold getMerkleProof
        simp [hA, hG]
      rw [hv] at h
      simp [okProof] at h
    · by_cases hE : amount = []
      · have hv : getMerkleProof m a = .error .userNotWhitelisted := by
          unfold getMerkleProof
          simp [hA, hG, hE]
        rw [hv] at h
        simp [okProof] at h
      · rcases hT : m.merkleTree with _ | layers
        · have hv : getMerkleProof m a = .error .merkleTreeNotGenerated := by
            unfold getMerkleProof
            simp [hA, hG, hE, hT]
          rw [hv] at h
          simp [okProof] at h
        · rcases hL : leafHash (jsToLower a) amount with _ | leaf
          · have hv : getMerkleProof m a = .error .ethersPackError := by
              unfold getMerkleProof
              simp [hA, hG, hE, hT, hL]
            rw [hv] at h
            simp [okProof] at h
          · have hok : getMerkleProof m a =
                .ok ⟨a, amount, getProofFromTree layers leaf, m.merkleRoot, leaf,
                  verifyProof (getProofFromTree layers leaf) leaf (m.merkleRoot.getD [])⟩ := by
              unfold getMerkleProof
              simp [hA, hG, hE, hT, hL]
            rw [hok] at h
            simp only [okProof, Option.some_inj] at h
            subst h
            rfl

/-- Witness for C3: the self-check equation instantiated on a concrete
one-member manager (where the returned `isValid` is the verification of the
returned singleton-tree proof). -/
theorem c3_self_check_reported_witness :
    ProofResult.isValid
        ((okProof (getMerkleProof ((addToWhitelist initialManager addrA [49]).1) addrA)).getD
          { user := [], amount := [], proof := [], merkleRoot := none,
            leaf := [], isValid := false })
      = verifyProof
          (ProofResult.proof
            ((okProof (getMerkleProof ((addToWhitelist initialManager addrA [49]).1)
                addrA)).getD
              { user := [], amount := [], proof := [], merkleRoot := none,
                leaf := [], isValid := false }))
          (ProofResult.leaf
            ((okProof (getMerkleProof ((addToWhitelist initialManager addrA [49]).1)
                addrA)).getD
              { user := [], amount := [], proof := [], merkleRoot := none,
                leaf := [], isValid := false }))
          (((addToWhitelist initialManager addrA [49]).1).merkleRoot.getD []) :=
  c3_self_check_reported ((addToWhitelist initialManager addrA [49]).1) addrA _ (by decide)

/-! ### Claim C5 -/

/-- Claim C5 counterexample: the round trip is NOT root-preserving on every
state — on the initial manager the exported root is `null`, but importing the
snapshot rebuilds on the empty whitelist and sets the zero sentinel root,
which differs from the original `null`. -/
theorem c5_initial_round_trip_changes_root :
    (importWhitelist initialManager (exportWhitelist initialManager)).1.merkleRoot
      = some zeroRoot ∧
    initialManager.merkleRoot = none ∧
    some zeroRoot ≠ (none : Option (List Nat)) := by
  refine ⟨by decide, rfl, by decide⟩

/-- Claim C5 (amended): on every state whose keys are canonical and distinct
(all reachable states) and whose cached tree/root agree with a rebuild (a
rebuild is a state no-op — true in every reachable state except the
freshly-constructed manager, whose root is still `null` rather than the
sentinel), `importSnapshot(exportSnapshot())` leaves the manager state
completely unchanged; in particular the root and every per-user
`getMerkleProof` outcome are identical before and after the round trip. -/
theorem c5_round_trip_id (m : Manager)
    (hcan : ∀ p ∈ m.whitelistedUsers, isAddress p.1 = true ∧ jsToLower p.1 = p.1)
    (hnd : (m.whitelistedUsers.map Prod.fst).Nodup)
    (hcons : Consistent m) :
    (importWhitelist m (exportWhitelist m)).1 = m ∧
    (importWhitelist m (exportWhitelist m)).1.merkleRoot = m.merkleRoot ∧
    (∀ a : Str, getMerkleProof ((importWhitelist m (exportWhitelist m)).1) a
      = getMerkleProof m a) := by
  have h1 : m.whitelistedUsers.foldl
      (fun acc p => if isAddress p.1 then mapSet acc (jsToLower p.1) p.2 else acc) []
      = m.whitelistedUsers := by
    have := import_fold_id m.whitelistedUsers [] hcan hnd (fun p _ => rfl)
    simpa using this
  have hstate : (importWhitelist m (exportWhitelist m)).1 = m := by
    unfold importWhitelist exportWhitelist
    dsimp only
    rw [h1]
    split
    · exact hcons
    · exact hcons
  exact ⟨hstate, by rw [hstate], fun a => by rw [hstate]⟩

/-- Witness for C5: the round trip on a concrete one-member manager. -/
theorem c5_round_trip_id_witness :
    (importWhitelist ((addToWhitelist initialManager addrA [49]).1)
        (exportWhitelist ((addToWhitelist initialManager addrA [49]).1))).1
      = (addToWhitelist initialManager addrA [49]).1 :=
  (c5_round_trip_id ((addToWhitelist initialManager addrA [49]).1)
    (by decide) (by decide)
    (by decide :
      (generateMerkleTree ((addToWhitelist initialManager addrA [49]).1)).1
        = (addToWhitelist initialManager addrA [49]).1)).1

theorem and255_eq_mod (x : Nat) : x &&& 255 = x % 256 := by
  have h := Nat.and_pow_two_sub_one_eq_mod x 8
  norm_num at h
  exact h

theorem beBytes_eq_range : ∀ (k n : Nat),
    beBytes k n = (List.range k).map (fun i => (n >>> (8 * (k - 1 - i))) &&& 255) := by
  intro k
  induction k with
  | zero => intro n; rfl
  | succ k ih =>
    intro n
    simp only [beBytes]
    rw [ih (n / 256), List.range_succ, List.map_append]
    congr 1
    · apply List.map_congr_left
      intro i hi
      have hik : i < k := List.mem_range.1 hi
      have harith : 8 * (k + 1 - 1 - i) = 8 * (k - 1 - i) + 8 := by omega
      rw [harith, Nat.add_comm (8 * (k - 1 - i)) 8, Nat.shiftRight_add]
      have h8 : n >>> 8 = n / 256 := by
        rw [Nat.shiftRight_eq_div_pow]
      rw [h8]
    · have h0 : k + 1 - 1 - k = 0 := by omega
      simp [h0, and255_eq_mod]

theorem packUint256_beBytes {v : Int} {vb : List Nat} (h0 : 0 ≤ v)
    (h : packUint256 v = some vb) : vb = beBytes 32 v.toNat := by
  unfold packUint256 at h
  rw [if_neg (show ¬ (v < 0) by omega)] at h
  dsimp only at h
  split at h
  · rw [← Option.some_inj.1 h, beBytes_eq_range]
  · cases h

theorem isAddress_marked_length {ds : Str} (h : isAddress (48 :: 120 :: ds) = true) :
    ds.length = 40 := by
  simp only [isAddress] at h
  have hstrip : stripHexMark (48 :: 120 :: ds) = ds := by
    simp [stripHexMark]
  rw [hstrip] at h
  have h40 := (Bool.and_eq_true_iff.1 (Bool.and_eq_true_iff.1 h).1).1
  simpa using h40

theorem hashPair_eq_spec (a b : List Nat) : hashPair a b = specNodeHash a b := by
  unfold hashPair specNodeHash sortPairSpec
  cases h : bytesLT b a <;> simp [h]

/-! ### Claim C2 -/

/-- Claim C2: the leaf of a whitelisted record is Keccak-256 of the 20
address bytes followed by the 256-bit big-endian amount; every paired
internal node is the hash of the sorted pair of its two children (and is
symmetric in them); and the leaf computed by `getMerkleProof` for a member
equals the leaf the tree construction produced for that member's position. -/
theorem c2_leaf_and_node_encoding :
    (∀ (addr amt : Str) (ab : List Nat) (v : Int) (vb : List Nat),
      isAddress addr = true → addressBytes addr = some ab →
      parseBigNum amt = some v → 0 ≤ v → packUint256 v = some vb →
      leafHash addr amt = some (specLeafHash ab v.toNat) ∧ ab.length = 20) ∧
    (∀ (a b : List Nat) (rest : List (List Nat)),
      nextLayer (a :: b :: rest) = specNodeHash a b :: nextLayer rest ∧
      specNodeHash a b = specNodeHash b a) ∧
    (∀ (m : Manager) (wl : List (Str × Str)) (ls : List (List Nat)) (i : Nat)
        (a k amt : Str) (r : ProofResult),
      m.whitelistedUsers = wl → computeLeaves wl = some ls →
      m.merkleTree = some (buildLayers ls) → (wl.map Prod.fst).Nodup →
      wl[i]? = some (k, amt) → isAddress a = true → jsToLower a = k → amt ≠ [] →
      okProof (getMerkleProof m a) = some r →
      ls[i]? = some r.leaf) := by
  refine ⟨?_, ?_, ?_⟩
  · intro addr amt ab v vb hA haddr hparse hv0 hpack
    constructor
    · have hkey : leafHash addr amt = some (keccak256 (ab ++ vb)) := by
        simp only [leafHash, solidityPackAddrUint, haddr, hparse, Option.some_bind, hpack,
          Option.map_some']
      rw [hkey, packUint256_beBytes hv0 hpack]
      rfl
    · cases addr with
      | nil => simp [addressBytes] at haddr
      | cons x s1 =>
        cases s1 with
        | nil => simp [addressBytes] at haddr
        | cons y ds =>
          simp only [addressBytes] at haddr
          split at haddr
          · rename_i hcond
            rcases hcond with ⟨h48, h120, hhex, heven⟩
            subst h48
            subst h120
            have hlen : ds.length = 40 := isAddress_marked_length hA
            rw [← Option.some_inj.1 haddr]
            simp [hlen]
          · cases haddr
  · intro a b rest
    constructor
    · rw [show nextLayer (a :: b :: rest) = hashPair a b :: nextLayer rest from rfl,
        hashPair_eq_spec]
    · rw [← hashPair_eq_spec, ← hashPair_eq_spec, hashPair_comm]
  · intro m wl ls i a k amt r hm hcl ht hnd hg hA hk hamt hr
    rcases computeLeaves_at hcl hg with ⟨l, hl, hls⟩
    have hG : mapGet m.whitelistedUsers (jsToLower a) = some amt := by
      rw [hm, hk]
      exact mapGet_at hnd hg
    have hl' : leafHash (jsToLower a) amt = some l := by
      rw [hk]
      exact hl
    have hok : getMerkleProof m a = .ok ⟨a, amt, getProofFromTree (buildLayers ls) l,
        m.merkleRoot, l,
        verifyProof (getProofFromTree (buildLayers ls) l) l (m.merkleRoot.getD [])⟩ := by
      unfold getMerkleProof
      simp [hA, hG, hamt, ht, hl']
    rw [hok] at hr
    simp only [okProof, Option.some_inj] at hr
    subst hr
    exact hls

/-- Witness for C2: all three parts instantiated on the concrete record
`(0xaaa…a, "1")` — the 20 `0xaa` address bytes, amount value 1, a concrete
node pair, and the proof leaf of the one-member manager. -/
theorem c2_leaf_and_node_encoding_witness :
    (leafHash addrA [49] = some (specLeafHash (List.replicate 20 170) ((1 : Int).toNat)) ∧
      (List.replicate 20 170 : List Nat).length = 20) ∧
    (nextLayer [[0], [1]] = specNodeHash [0] [1] :: nextLayer [] ∧
      specNodeHash [0] [1] = specNodeHash [1] [0]) ∧
    ([(leafHash addrA [49]).getD []] : List (List Nat))[(0 : Nat)]?
      = some (ProofResult.leaf ((okProof (getMerkleProof
          ((addToWhitelist initialManager addrA [49]).1) addrA)).getD
            { user := [], amount := [], proof := [], merkleRoot := none,
              leaf := [], isValid := false })) :=
  ⟨c2_leaf_and_node_encoding.1 addrA [49] (List.replicate 20 170) 1 (beBytes 32 1)
    (by decide) (by decide) (by decide) (by decide) (by decide),
   c2_leaf_and_node_encoding.2.1 [0] [1] [],
   c2_leaf_and_node_encoding.2.2 ((addToWhitelist initialManager addrA [49]).1)
    [(addrA, [49])] [(leafHash addrA [49]).getD []] 0 addrA addrA [49]
    ((okProof (getMerkleProof ((addToWhitelist initialManager addrA [49]).1) addrA)).getD
      { user := [], amount := [], proof := [], merkleRoot := none,
        leaf := [], isValid := false })
    (by decide) (by decide) (by decide) (by decide) (by decide) (by decide) (by decide)
    (by decide) (by decide)⟩
